import Mathlib

/-!
Verification of the AGI protocol engine of `go-asterisk-agi`.

The Go sources are shallowly embedded: strings are modelled as `List Char`
(all protocol text in scope is ASCII), Go's byte slicing and `strconv.Atoi`
are modelled explicitly, a Go function that can panic returns `GoResult`
with a dedicated `panicked` constructor, and Go maps are modelled as
association lists with in-place overwrite on insert.
-/

set_option autoImplicit false

namespace AgiSpec

/-- ASCII white space as trimmed by Go `strings.TrimSpace`
(the protocol text in scope is ASCII, so the Unicode cases are irrelevant). -/
def isSpaceChar (c : Char) : Bool :=
  c = ' ' || c = '\t' || c = '\n' || c = '\x0b' || c = '\x0c' || c = '\r'

/-- Drop leading white space. -/
def trimLeft : List Char → List Char
  | [] => []
  | c :: r => if isSpaceChar c then trimLeft r else c :: r

/-- Go `strings.TrimSpace` on char lists. -/
def trimSpace (l : List Char) : List Char :=
  (trimLeft (trimLeft l).reverse).reverse

/-- Go `strings.HasPrefix p l` (arguments: pattern first). -/
def startsWithL : List Char → List Char → Bool
  | [], _ => true
  | _ :: _, [] => false
  | p :: ps, c :: cs => p = c && startsWithL ps cs

/-- Go `strings.HasSuffix`. -/
def endsWithL (p l : List Char) : Bool :=
  startsWithL p.reverse l.reverse

/-- Go `strings.TrimPrefix p l`: drop `p` when it is a prefix, else unchanged. -/
def trimLead (p l : List Char) : List Char :=
  if startsWithL p l then l.drop p.length else l

/-- Split at the first occurrence of `sep`, when there is one. -/
def splitOnce (sep : Char) : List Char → Option (List Char × List Char)
  | [] => none
  | c :: r =>
    if c = sep then some ([], r)
    else
      match splitOnce sep r with
      | none => none
      | some (a, b) => some (c :: a, b)

/-- Go `strings.SplitN l sep 2` for a one-character separator:
one part when the separator is absent, exactly two parts otherwise. -/
def splitN2 (sep : Char) (l : List Char) : List (List Char) :=
  match splitOnce sep l with
  | none => [l]
  | some (a, b) => [a, b]

/-- Decimal digit value. -/
def digitVal (c : Char) : Option Nat :=
  if '0' ≤ c ∧ c ≤ '9' then some (c.toNat - '0'.toNat) else none

/-- Accumulate decimal digits; fails on any non-digit. -/
def parseDigitsAux : Nat → List Char → Option Nat
  | acc, [] => some acc
  | acc, c :: r =>
    match digitVal c with
    | none => none
    | some d => parseDigitsAux (acc * 10 + d) r

/-- A non-empty all-digit run, as a number. -/
def parseDigits : List Char → Option Nat
  | [] => none
  | l => parseDigitsAux 0 l

/-- Go `strconv.Atoi` (optional sign then digits; overflow is irrelevant at
the magnitudes the protocol uses, so the value is an unbounded `Int`). -/
def atoi : List Char → Option Int
  | '-' :: r => (parseDigits r).map (fun n => -(n : Int))
  | '+' :: r => (parseDigits r).map (fun n => (n : Int))
  | l => (parseDigits l).map (fun n => (n : Int))

/-- Go slice expression `l[n:]`: out-of-range slicing is a runtime panic,
modelled as `none`. -/
def goSliceFrom (n : Nat) (l : List Char) : Option (List Char) :=
  if n ≤ l.length then some (l.drop n) else none

/-- Outcome of a Go call: a value, a returned error (with the Go error
message), or a runtime panic. -/
inductive GoResult (α : Type) where
  | ok : α → GoResult α
  | err : String → GoResult α
  | panicked : GoResult α
  deriving DecidableEq, Repr

/-- The `AgiResponse` struct. Fields not assigned by `parseResponse`
keep their Go zero values. -/
structure AgiResponse where
  Status : Int := 0
  Result : Int := 0
  Data : List Char := []
  Raw : List Char := []
  EndPos : Int := 0
  Digits : List Char := []
  Timeout : Bool := false
  deriving DecidableEq, Repr

/-- `parseResponse` from the session source: trim, require the `"200"`
prefix, slice the line at byte 4 (a panic when the trimmed line is shorter),
split the rest on the first space into exactly two parts, `Atoi` the first
part, and store the trimmed second part as `Data`. -/
def parseResponse (line0 : List Char) : GoResult AgiResponse :=
  let line := trimSpace line0
  if startsWithL ['2', '0', '0'] line = false then
    .err "invalid response"
  else
    match goSliceFrom 4 line with
    | none => .panicked
    | some rest =>
      match splitN2 ' ' rest with
      | [p0, p1] =>
        match atoi p0 with
        | none => .err "failed to parse result"
        | some result =>
          .ok { Status := 1, Result := result, Raw := line, Data := trimSpace p1 }
      | _ => .err "invalid response format"

/-- Strip one layer of wrapping parentheses, as `ParseAGIResult` does. -/
def unwrapParens (d : List Char) : List Char :=
  if startsWithL ['('] d && endsWithL [')'] d then (d.drop 1).dropLast else d

/-- `ParseAGIResult` from `util.go`: require the `"200"` prefix, strip
`"200 "` then require and strip `"result="`, split on the first space,
`Atoi` the first part, and return the trimmed, paren-unwrapped second part
as the data. -/
def ParseAGIResult (s0 : List Char) : GoResult (Int × List Char) :=
  if startsWithL ['2', '0', '0'] s0 = false then
    .err "invalid AGI response"
  else
    let s1 := trimLead ['2', '0', '0', ' '] s0
    if startsWithL ['r', 'e', 's', 'u', 'l', 't', '='] s1 = false then
      .err "invalid AGI response format"
    else
      let s2 := trimLead ['r', 'e', 's', 'u', 'l', 't', '='] s1
      match splitN2 ' ' s2 with
      | [] => .panicked
      | p0 :: ps =>
        match atoi p0 with
        | none => .err "failed to parse result code"
        | some result =>
          match ps with
          | [] => .ok (result, [])
          | p1 :: _ => .ok (result, unwrapParens (trimSpace p1))

/-- The session environment, a Go `map[string]string` modelled as an
association list whose observable behaviour (overwrite on insert, first
match on lookup) matches the Go map. -/
abbrev EnvMap : Type := List (List Char × List Char)

/-- Go map assignment `m[k] = v`: replace the binding in place when the key
is present, append otherwise. -/
def envInsert (m : EnvMap) (k v : List Char) : EnvMap :=
  match m with
  | [] => [(k, v)]
  | (k', v') :: r => if k' = k then (k, v) :: r else (k', v') :: envInsert r k v

/-- Go map lookup `m[k]` as an option (comma-ok form). -/
def envFind (m : EnvMap) (k : List Char) : Option (List Char) :=
  match m with
  | [] => none
  | (k', v') :: r => if k' = k then some v' else envFind r k

/-- `AgiSession.readEnvironment`: consume lines until a blank one, trimming
each, splitting on the first `:` into key and value (both trimmed) and
overwriting into the environment; a non-blank line without `:` is the
malformed-environment error, and end of input before the blank line is the
read error. Returns the mapping together with the unread lines. -/
def readEnvironment : List (List Char) → EnvMap → GoResult (EnvMap × List (List Char))
  | [], _ => .err "failed to read environment line"
  | line :: rest, env =>
    let t := trimSpace line
    if t = [] then .ok (env, rest)
    else
      match splitN2 ':' t with
      | [k, v] => readEnvironment rest (envInsert env (trimSpace k) (trimSpace v))
      | _ => .err "invalid environment line"

/-- The environment contribution of one valid header line. -/
def envStep (m : EnvMap) (line : List Char) : EnvMap :=
  match splitN2 ':' (trimSpace line) with
  | [k, v] => envInsert m (trimSpace k) (trimSpace v)
  | _ => m

/-- The mapping a block of valid header lines accumulates, in order. -/
def envOfBlock (block : List (List Char)) : EnvMap :=
  block.foldl envStep []

/-- The (trimmed) key carried by a valid header line. -/
def lineKey (line : List Char) : List Char :=
  match splitN2 ':' (trimSpace line) with
  | [k, _] => trimSpace k
  | _ => []

/-- A valid header line: non-blank after trimming and containing a `:`. -/
def validHeaderLine (line : List Char) : Prop :=
  trimSpace line ≠ [] ∧ (splitN2 ':' (trimSpace line)).length = 2

instance (line : List Char) : Decidable (validHeaderLine line) := by
  unfold validHeaderLine; infer_instance

/-- `FastAGIServer.handleConnection`, restricted to what it does with the
header lines: build a session and invoke the handler only when
`readEnvironment` succeeds. The result records whether the handler ran. -/
def handleConnectionInvokesHandler (lines : List (List Char)) : Bool :=
  match readEnvironment lines [] with
  | .ok _ => true
  | _ => false

/-- `AgiSession.GetEnv`: Go map indexing `s.env[key]`, which yields the
zero value `""` for an absent key and never an error. -/
def GetEnv (env : EnvMap) (key : List Char) : List Char :=
  (envFind env key).getD []

/-- The session state visible to `Close`: the immutable environment, the
debug flag, the timeout, whether `cancelFunc` was ever assigned (the
standalone constructors assign it; the connection worker's struct literal
leaves it nil), and whether the cancellation has fired. -/
structure SessionState where
  env : EnvMap
  debugMode : Bool
  timeoutSeconds : Nat
  hasCancel : Bool
  cancelled : Bool
  deriving DecidableEq

/-- Session as built by `NewAgiSession` / `NewWithContext`:
`context.WithCancel` assigns a non-nil `cancelFunc`. -/
def newSessionState (env : EnvMap) : SessionState :=
  { env := env, debugMode := false, timeoutSeconds := 30,
    hasCancel := true, cancelled := false }

/-- Session as built inside `FastAGIServer.handleConnection`: the struct
literal sets reader, writer, env, variables, debugMode and timeout but
leaves `ctx` and `cancelFunc` nil. -/
def workerSessionState (env : EnvMap) : SessionState :=
  { env := env, debugMode := false, timeoutSeconds := 30,
    hasCancel := false, cancelled := false }

/-- `AgiSession.Close`: call `s.cancelFunc()` and return nil. Calling a nil
function value is a runtime panic; otherwise the only effect is that the
cancellation is now fired, and the returned error is always nil (`ok`). -/
def closeSession (s : SessionState) : GoResult SessionState :=
  if s.hasCancel then .ok { s with cancelled := true } else .panicked

/-- Go `string(r)` for a rune-valued int, as used on `resp.Result`:
the code point when valid, the replacement character otherwise. -/
def goStringOfInt (r : Int) : List Char :=
  if 0 ≤ r ∧ r < 0xd800 then [Char.ofNat r.toNat] else ['�']

/-- `AgiSession.GetOption`, given the reply line the peer sends back:
execute parses the reply; a parse failure propagates as an error, a
`-1` result becomes the empty string with no error (the timeout
convention), and any other result is converted with `string(...)`. -/
def GetOptionOnReply (replyLine : List Char) : GoResult (List Char) :=
  match parseResponse replyLine with
  | .ok resp => if resp.Result = -1 then .ok [] else .ok (goStringOfInt resp.Result)
  | .err e => .err e
  | .panicked => .panicked

/-- `EscapeString` step 1: `strings.ReplaceAll s "\\" "\\\\"`. -/
def escBackslash : List Char → List Char
  | [] => []
  | c :: r => if c = '\\' then '\\' :: '\\' :: escBackslash r else c :: escBackslash r

/-- `EscapeString` step 2: `strings.ReplaceAll s "\"" "\\\""`. -/
def escQuote : List Char → List Char
  | [] => []
  | c :: r => if c = '"' then '\\' :: '"' :: escQuote r else c :: escQuote r

/-- `UnescapeString` step 1: `strings.ReplaceAll s "\\\"" "\""`, leftmost
non-overlapping. -/
def unescQuote : List Char → List Char
  | [] => []
  | [c] => [c]
  | c1 :: c2 :: r =>
    if c1 = '\\' ∧ c2 = '"' then '"' :: unescQuote r
    else c1 :: unescQuote (c2 :: r)

/-- `UnescapeString` step 2: `strings.ReplaceAll s "\\\\" "\\"`, leftmost
non-overlapping. -/
def unescBackslash : List Char → List Char
  | [] => []
  | [c] => [c]
  | c1 :: c2 :: r =>
    if c1 = '\\' ∧ c2 = '\\' then '\\' :: unescBackslash r
    else c1 :: unescBackslash (c2 :: r)

/-- `EscapeString` from `util.go`. -/
def EscapeString (s : String) : String :=
  ⟨escQuote (escBackslash s.data)⟩

/-- `UnescapeString` from `util.go`. -/
def UnescapeString (s : String) : String :=
  ⟨unescBackslash (unescQuote s.data)⟩

/-- Where the accept loop of `FastAGIServer.Serve` stands: still running,
returned `nil` (the intentional-stop branch of the `select`), or returned
the wrapped accept error. -/
inductive AcceptLoopState where
  | running
  | stoppedNormal
  | stoppedError
  deriving DecidableEq, Repr

/-- Program counter of `FastAGIServer.Stop`, whose body is the ordered
sequence `cancelFunc(); listener.Close(); wg.Wait(); return`. -/
inductive StopPC where
  | notStarted
  | didCancel
  | didCloseListener
  | returned
  deriving DecidableEq, Repr

/-- The shared server state during shutdown: the `sync.WaitGroup` counter,
the number of live connection workers, the server-wide `context` and
listener flags, and where `Stop` and the accept loop stand. -/
structure ServerState where
  wgCounter : Nat
  activeWorkers : Nat
  ctxCancelled : Bool
  listenerClosed : Bool
  stopPC : StopPC
  acceptLoop : AcceptLoopState
  deriving DecidableEq, Repr

/-- A server with `n` in-flight connection workers, before `Stop` is
invoked: every worker was registered with `wg.Add(1)`. -/
def serverWithWorkers (n : Nat) : ServerState :=
  { wgCounter := n, activeWorkers := n, ctxCancelled := false,
    listenerClosed := false, stopPC := .notStarted, acceptLoop := .running }

/-- One interleaved step of the server, its `Stop` caller and its workers,
read off the Go code:
`Stop` first cancels the server context, then closes the listener, and can
return only once `wg.Wait` observes a zero counter; the accept loop, once
the listener is closed under it, takes the `ctx.Done` branch of its
`select` exactly when the context is cancelled (returning `nil`) and the
error branch otherwise; an accept on a live listener registers one more
worker (`wg.Add(1)` plus `go handleConnection`); and a worker exit runs the
deferred `wg.Done()`. -/
inductive ServerStep : ServerState → ServerState → Prop where
  | stopCancel (s : ServerState) :
      s.stopPC = .notStarted →
      ServerStep s { s with stopPC := .didCancel, ctxCancelled := true }
  | stopCloseListener (s : ServerState) :
      s.stopPC = .didCancel →
      ServerStep s { s with stopPC := .didCloseListener, listenerClosed := true }
  | stopReturn (s : ServerState) :
      s.stopPC = .didCloseListener →
      s.wgCounter = 0 →
      ServerStep s { s with stopPC := .returned }
  | acceptConnection (s : ServerState) :
      s.acceptLoop = .running →
      s.listenerClosed = false →
      ServerStep s { s with wgCounter := s.wgCounter + 1,
                            activeWorkers := s.activeWorkers + 1 }
  | acceptFails (s : ServerState) :
      s.acceptLoop = .running →
      s.listenerClosed = true →
      ServerStep s { s with acceptLoop :=
        if s.ctxCancelled then .stoppedNormal else .stoppedError }
  | workerExit (s : ServerState) (w c : Nat) :
      s.activeWorkers = w + 1 →
      s.wgCounter = c + 1 →
      ServerStep s { s with activeWorkers := w, wgCounter := c }

/-- Reachability under interleaved server steps. -/
def ServerReach (a b : ServerState) : Prop :=
  Relation.ReflTransGen ServerStep a b

/-! ### Helper lemmas -/

theorem startsWithL_take {p l : List Char} (h : startsWithL p l = true) :
    p.length ≤ l.length ∧ l.take p.length = p := by
  induction p generalizing l with
  | nil => simp
  | cons a ps ih =>
    cases l with
    | nil => simp [startsWithL] at h
    | cons c cs =>
      simp only [startsWithL, Bool.and_eq_true, decide_eq_true_eq] at h
      obtain ⟨rfl, h2⟩ := h
      obtain ⟨hl, ht⟩ := ih h2
      exact ⟨Nat.succ_le_succ hl, by simp [ht]⟩

theorem splitN2_ne_nil (sep : Char) (l : List Char) : splitN2 sep l ≠ [] := by
  unfold splitN2
  cases splitOnce sep l with
  | none => simp
  | some ab => cases ab; simp

theorem parseResponse_no_panic_of_long {l : List Char}
    (hp : startsWithL ['2', '0', '0'] (trimSpace l) = true)
    (h4 : 4 ≤ (trimSpace l).length) :
    parseResponse l ≠ .panicked := by
  unfold parseResponse goSliceFrom
  rw [if_neg (by simp [hp])]
  rw [if_pos h4]
  rcases hsp : splitN2 ' ' ((trimSpace l).drop 4) with _ | ⟨p0, ps⟩
  · simp [hsp]
  · rcases ps with _ | ⟨p1, ps2⟩
    · simp [hsp]
    · rcases ps2 with _ | _
      · cases hat : atoi p0 <;> simp [hsp, hat]
      · simp [hsp]

theorem envFind_insert_isSome (m : EnvMap) (k v q : List Char) :
    (envFind (envInsert m k v) q).isSome = true ↔
      q = k ∨ (envFind m q).isSome = true := by
  induction m with
  | nil =>
    simp only [envInsert, envFind]
    by_cases hq : k = q <;> simp [hq, eq_comm]
  | cons p r ih =>
    obtain ⟨k', v'⟩ := p
    simp only [envInsert]
    by_cases hk : k' = k
    · subst hk
      simp only [if_pos rfl, envFind]
      by_cases hq : k' = q
      · subst hq; simp
      · simp [hq, Ne.symm hq]
    · rw [if_neg hk]
      simp only [envFind]
      by_cases hq : k' = q
      · subst hq; simp
      · simp [hq, ih]

theorem envFind_eq_none_of_not_mem (m : EnvMap) (k : List Char)
    (h : k ∉ m.map Prod.fst) : envFind m k = none := by
  induction m with
  | nil => rfl
  | cons p r ih =>
    obtain ⟨k', v'⟩ := p
    simp only [List.map_cons, List.mem_cons] at h
    push_neg at h
    simp only [envFind]
    rw [if_neg (fun hq : k' = k => h.1 hq.symm)]
    exact ih h.2

theorem validHeaderLine_parts {l : List Char} (h : validHeaderLine l) :
    ∃ k v, splitN2 ':' (trimSpace l) = [k, v] := by
  obtain ⟨-, hlen⟩ := h
  rcases hsp : splitN2 ':' (trimSpace l) with _ | ⟨k, ps⟩
  · rw [hsp] at hlen; simp at hlen
  · rcases ps with _ | ⟨v, ps2⟩
    · rw [hsp] at hlen; simp at hlen
    · rcases ps2 with _ | _
      · exact ⟨k, v, rfl⟩
      · rw [hsp] at hlen; simp at hlen

theorem readEnvironment_valid_block (block : List (List Char)) :
    ∀ (env : EnvMap) (term : List Char) (rest : List (List Char)),
    trimSpace term = [] →
    (∀ l ∈ block, validHeaderLine l) →
    readEnvironment (block ++ term :: rest) env = .ok (block.foldl envStep env, rest) := by
  induction block with
  | nil =>
    intro env term rest hterm _
    simp [readEnvironment, hterm]
  | cons l bs ih =>
    intro env term rest hterm hvalid
    have hv := hvalid l (by simp)
    obtain ⟨k, v, hkv⟩ := validHeaderLine_parts hv
    have hne : trimSpace l ≠ [] := hv.1
    simp only [List.cons_append, readEnvironment, if_neg hne, hkv]
    have hstep : envStep env l = envInsert env (trimSpace k) (trimSpace v) := by
      simp [envStep, hkv]
    rw [List.foldl_cons, ← hstep]
    exact ih _ term rest hterm (fun x hx => hvalid x (by simp [hx]))

theorem lineKey_eq {l k v : List Char} (hkv : splitN2 ':' (trimSpace l) = [k, v]) :
    lineKey l = trimSpace k := by
  simp [lineKey, hkv]

theorem envFind_foldl_isSome (block : List (List Char)) :
    ∀ (env : EnvMap) (q : List Char),
    (∀ l ∈ block, validHeaderLine l) →
    ((envFind (block.foldl envStep env) q).isSome = true ↔
      (envFind env q).isSome = true ∨ q ∈ block.map lineKey) := by
  induction block with
  | nil => intro env q _; simp
  | cons l bs ih =>
    intro env q hvalid
    have hv := hvalid l (by simp)
    obtain ⟨k, v, hkv⟩ := validHeaderLine_parts hv
    rw [List.foldl_cons]
    have hstep : envStep env l = envInsert env (trimSpace k) (trimSpace v) := by
      simp [envStep, hkv]
    rw [hstep, ih _ q (fun x hx => hvalid x (by simp [hx])),
        envFind_insert_isSome, List.map_cons, List.mem_cons, lineKey_eq hkv]
    tauto

theorem readEnvironment_bad_line (good : List (List Char)) :
    ∀ (env : EnvMap) (bad : List Char) (rest : List (List Char)),
    (∀ l ∈ good, validHeaderLine l) →
    trimSpace bad ≠ [] →
    splitOnce ':' (trimSpace bad) = none →
    readEnvironment (good ++ bad :: rest) env = .err "invalid environment line" := by
  induction good with
  | nil =>
    intro env bad rest _ hbadne hbad
    simp [readEnvironment, hbadne, splitN2, hbad]
  | cons l gs ih =>
    intro env bad rest hvalid hbadne hbad
    have hv := hvalid l (by simp)
    obtain ⟨k, v, hkv⟩ := validHeaderLine_parts hv
    simp only [List.cons_append, readEnvironment, if_neg hv.1, hkv]
    exact ih _ bad rest (fun x hx => hvalid x (by simp [hx])) hbadne hbad

/-- The shutdown invariant: the wait-group counter mirrors the live
workers, `Stop`'s progress is consistent with the context and listener
flags, the listener is only ever closed after the context is cancelled,
`Stop` has not returned while workers remain, and the accept loop has not
exited with an error. -/
def ServerInv (s : ServerState) : Prop :=
  s.wgCounter = s.activeWorkers ∧
  (s.stopPC ≠ .notStarted → s.ctxCancelled = true) ∧
  (s.stopPC = .didCloseListener ∨ s.stopPC = .returned → s.listenerClosed = true) ∧
  (s.listenerClosed = true → s.ctxCancelled = true) ∧
  (s.stopPC = .returned → s.wgCounter = 0) ∧
  s.acceptLoop ≠ .stoppedError

theorem serverInv_init (n : Nat) : ServerInv (serverWithWorkers n) := by
  refine ⟨rfl, ?_, ?_, ?_, ?_, ?_⟩ <;> simp [serverWithWorkers]

theorem serverInv_step {a b : ServerState} (h : ServerStep a b)
    (ha : ServerInv a) : ServerInv b := by
  obtain ⟨h1, h2, h3, h4, h5, h6⟩ := ha
  cases h with
  | stopCancel hpc =>
    refine ⟨h1, fun _ => rfl, ?_, fun _ => rfl, ?_, h6⟩
    · intro hc; cases hc <;> simp_all
    · intro hc; simp_all
  | stopCloseListener hpc =>
    refine ⟨h1, fun _ => h2 (by simp [hpc]), fun _ => rfl, fun _ => h2 (by simp [hpc]), ?_, h6⟩
    intro hc; simp_all
  | stopReturn hpc hc =>
    exact ⟨h1, fun _ => h2 (by simp [hpc]), fun _ => h3 (Or.inl hpc), h4, fun _ => hc, h6⟩
  | acceptConnection hrun hopen =>
    refine ⟨by simp [h1], h2, h3, h4, ?_, h6⟩
    intro hret
    have := h3 (Or.inr hret)
    simp_all
  | acceptFails hrun hclosed =>
    have hcanc := h4 hclosed
    refine ⟨h1, h2, h3, h4, h5, ?_⟩
    simp [hcanc]
  | workerExit w c hw hc =>
    refine ⟨?_, h2, h3, h4, ?_, h6⟩
    · have := h1; simp_all
    · intro hret
      have := h5 hret
      simp_all

theorem serverInv_reach {n : Nat} {s : ServerState}
    (h : ServerReach (serverWithWorkers n) s) : ServerInv s := by
  induction h with
  | refl => exact serverInv_init n
  | tail _ hstep ih => exact serverInv_step hstep ih

theorem unescBackslash_escBackslash : ∀ l : List Char, unescBackslash (escBackslash l) = l
  | [] => rfl
  | c :: r => by
    by_cases hc : c = '\\'
    · subst hc
      have h1 : escBackslash ('\\' :: r) = '\\' :: '\\' :: escBackslash r := by
        simp [escBackslash]
      have h2 : unescBackslash ('\\' :: '\\' :: escBackslash r) =
          '\\' :: unescBackslash (escBackslash r) := by
        simp [unescBackslash]
      rw [h1, h2, unescBackslash_escBackslash r]
    · have h1 : escBackslash (c :: r) = c :: escBackslash r := by
        simp [escBackslash, hc]
      rw [h1]
      cases r with
      | nil => simp [escBackslash, unescBackslash]
      | cons a r' =>
        have hx : ∃ x t, escBackslash (a :: r') = x :: t := by
          by_cases ha : a = '\\' <;> simp [escBackslash, ha]
        obtain ⟨x, t, hxt⟩ := hx
        have h3 : unescBackslash (c :: x :: t) = c :: unescBackslash (x :: t) := by
          simp [unescBackslash, hc]
        rw [hxt, h3, ← hxt, unescBackslash_escBackslash (a :: r')]

theorem unescQuote_escQuote : ∀ l : List Char, unescQuote (escQuote l) = l
  | [] => rfl
  | c :: r => by
    by_cases hc : c = '"'
    · subst hc
      have h1 : escQuote ('"' :: r) = '\\' :: '"' :: escQuote r := by
        simp [escQuote]
      have h2 : unescQuote ('\\' :: '"' :: escQuote r) =
          '"' :: unescQuote (escQuote r) := by
        simp [unescQuote]
      rw [h1, h2, unescQuote_escQuote r]
    · have h1 : escQuote (c :: r) = c :: escQuote r := by
        simp [escQuote, hc]
      rw [h1]
      cases r with
      | nil => simp [escQuote, unescQuote]
      | cons a r' =>
        by_cases ha : a = '"'
        · subst ha
          have h2 : escQuote ('"' :: r') = '\\' :: '"' :: escQuote r' := by
            simp [escQuote]
          have h3 : unescQuote (c :: '\\' :: '"' :: escQuote r') =
              c :: unescQuote ('\\' :: '"' :: escQuote r') := by
            simp [unescQuote]
          have h4 : unescQuote ('\\' :: '"' :: escQuote r') =
              '"' :: unescQuote (escQuote r') := by
            simp [unescQuote]
          rw [h2, h3, h4, unescQuote_escQuote r']
        · have h2 : escQuote (a :: r') = a :: escQuote r' := by
            simp [escQuote, ha]
          have h3 : unescQuote (c :: a :: escQuote r') =
              c :: unescQuote (a :: escQuote r') := by
            simp [unescQuote, ha]
          rw [h2, h3, ← h2, unescQuote_escQuote (a :: r')]

/-! ### Claim theorems -/

/-- C1: the claim says the codec's reply parser accepts every line of the
form `200 result=<n>[ (<data>)]`, in particular mapping
`"200 result=1 (hello)"` to status 1, result 1, data `hello`. The code
instead splits the text after byte 4 at the first space and feeds the token
`result=1` to `Atoi`, so `parseResponse` rejects the line with
"failed to parse result" — contradicting the repository's own
`TestResponseParsing`/`TestAGICommands` tests — while the utility-layer
`ParseAGIResult` exhibits exactly the claimed result and unwrapped data. -/
theorem c1_success_line_rejected_by_codec :
    parseResponse ("200 result=1 (hello)".data) = .err "failed to parse result" ∧
    ParseAGIResult ("200 result=1 (hello)".data) = .ok (1, "hello".data) := by
  decide

/-- C2: every input line whose trimmed form does not start with the marker
`"200"` is rejected by `parseResponse` with the "invalid response" protocol
error, and no reply value (nor a panic) is ever produced. -/
theorem c2_non200_line_yields_protocol_error (l : List Char)
    (h : startsWithL ['2', '0', '0'] (trimSpace l) = false) :
    parseResponse l = .err "invalid response" := by
  unfold parseResponse
  simp [h]

theorem c2_witness :
    parseResponse ("500 invalid command".data) = .err "invalid response" :=
  c2_non200_line_yields_protocol_error _ (by decide)

/-- C3: the claim says a reply of `"200 result=-1"` reaches the convenience
layer as a parsed result of `-1` and is converted to an empty value with no
error. In the code, `parseResponse` rejects that very line with
"invalid response format" (the text after byte 4 contains no space, so
`SplitN` yields one part instead of the required two), hence `GetOption`
propagates an error and the `-1` timeout convention in its body is
unreachable for this line — contradicting the repository's own test that
expects `"200 result=0"` to execute without error. -/
theorem c3_timeout_reply_rejected_by_codec :
    GetOptionOnReply ("200 result=-1".data) = .err "invalid response format" ∧
    parseResponse ("200 result=-1".data) = .err "invalid response format" := by
  decide

/-- C4: a header block of valid `key: value` lines terminated by a blank
line parses successfully into exactly the accumulated mapping (trimmed keys
and values, later duplicates overwriting earlier ones via `envInsert`), the
lines after the blank terminator are left unread, and the resulting mapping
holds a key if and only if some block line carries it. -/
theorem c4_environment_block_parsed_exactly (block : List (List Char))
    (term : List Char) (rest : List (List Char))
    (hterm : trimSpace term = [])
    (hvalid : ∀ l ∈ block, validHeaderLine l) :
    readEnvironment (block ++ term :: rest) [] = .ok (envOfBlock block, rest) ∧
    (∀ q, (envFind (envOfBlock block) q).isSome = true ↔ q ∈ block.map lineKey) := by
  constructor
  · exact readEnvironment_valid_block block [] term rest hterm hvalid
  · intro q
    rw [envOfBlock, envFind_foldl_isSome block [] q hvalid]
    simp [envFind]

theorem c4_witness :
    readEnvironment (["agi_network: yes".data, "agi_network_script: demo.agi".data]
        ++ [] :: ["LEFTOVER".data]) [] =
      .ok (envOfBlock ["agi_network: yes".data, "agi_network_script: demo.agi".data],
        ["LEFTOVER".data]) ∧
    (envFind (envOfBlock ["agi_network: yes".data, "agi_network_script: demo.agi".data])
      ("agi_network".data)).isSome = true ∧
    ¬(envFind (envOfBlock ["agi_network: yes".data, "agi_network_script: demo.agi".data])
      ("agi_absent".data)).isSome = true := by
  refine ⟨(c4_environment_block_parsed_exactly _ [] ["LEFTOVER".data] (by decide)
      (by decide)).1,
    ((c4_environment_block_parsed_exactly _ [] ["LEFTOVER".data] (by decide)
      (by decide)).2 _).mpr (by decide), fun hmem => ?_⟩
  have := ((c4_environment_block_parsed_exactly
    ["agi_network: yes".data, "agi_network_script: demo.agi".data] [] ["LEFTOVER".data]
    (by decide) (by decide)).2 ("agi_absent".data)).mp hmem
  revert this
  decide

/-- C5: a header block containing a non-blank line with no `:` separator
makes `readEnvironment` fail with the malformed-environment error, so
session construction fails and the connection worker returns without ever
invoking the application handler. -/
theorem c5_malformed_env_aborts_without_handler (good : List (List Char))
    (bad : List Char) (rest : List (List Char))
    (hgood : ∀ l ∈ good, validHeaderLine l)
    (hbadne : trimSpace bad ≠ [])
    (hbad : splitOnce ':' (trimSpace bad) = none) :
    readEnvironment (good ++ bad :: rest) [] = .err "invalid environment line" ∧
    handleConnectionInvokesHandler (good ++ bad :: rest) = false := by
  have h := readEnvironment_bad_line good [] bad rest hgood hbadne hbad
  exact ⟨h, by simp [handleConnectionInvokesHandler, h]⟩

theorem c5_witness :
    readEnvironment (["agi_network: yes".data] ++ "invalid line".data :: []) [] =
      .err "invalid environment line" ∧
    handleConnectionInvokesHandler
      (["agi_network: yes".data] ++ "invalid line".data :: []) = false :=
  c5_malformed_env_aborts_without_handler _ _ _ (by decide) (by decide) (by decide)

/-- C6 counterexample: on the input line `"200"` — exactly the marker with
no result token — `parseResponse` does not return an error: the slice at
byte index 4, guarded only by a 3-character prefix check, is out of range
and the code panics. -/
theorem c6_counterexample_bare_200_panics :
    parseResponse ("200".data) = .panicked := by
  decide

/-- C6 (amended): the reply parser is total — returning a reply or an
error — on exactly those inputs whose trimmed form is not the bare
three-character string `"200"`; on inputs trimming to `"200"` the slice at
index 4 is out of range and the parser panics instead of returning. -/
theorem c6_parser_panics_exactly_on_bare_200 (l : List Char) :
    parseResponse l = .panicked ↔ trimSpace l = ['2', '0', '0'] := by
  by_cases hs : startsWithL ['2', '0', '0'] (trimSpace l) = true
  · by_cases h4 : 4 ≤ (trimSpace l).length
    · have hnp := parseResponse_no_panic_of_long hs h4
      constructor
      · intro h; exact absurd h hnp
      · intro h; rw [h] at h4; simp at h4
    · have hpan : parseResponse l = .panicked := by
        unfold parseResponse goSliceFrom
        rw [if_neg (by simp [hs]), if_neg h4]
      obtain ⟨hlen, htake⟩ := startsWithL_take hs
      have hlen3 : (trimSpace l).length = 3 := by
        simp only [List.length_cons, List.length_nil] at hlen
        omega
      have heq : trimSpace l = ['2', '0', '0'] := by
        have ht3 : (trimSpace l).take 3 = ['2', '0', '0'] := by simpa using htake
        rw [← ht3, ← hlen3, List.take_length]
      simp [hpan, heq]
  · have hf : startsWithL ['2', '0', '0'] (trimSpace l) = false := by
      simpa using hs
    have herr : parseResponse l = .err "invalid response" := by
      unfold parseResponse; simp [hf]
    rw [herr]
    constructor
    · intro h; cases h
    · intro h; rw [h] at hf; exact absurd hf (by decide)

/-- C7 counterexample: a session built by the connection server's worker
never has its cancel function assigned, so calling `Close` on it
dereferences a nil function value and panics rather than succeeding. -/
theorem c7_counterexample_worker_session_close_panics :
    closeSession (workerSessionState []) = .panicked := by
  decide

/-- C7 (amended): for sessions built by the standalone constructor — which
always installs a cancel function — `Close` succeeds (returns nil), touches
only the cancellation flag, and a second `Close` succeeds again leaving the
state unchanged; sessions built by the connection server's worker have no
cancel function, and `Close` on them panics (see the counterexample). -/
theorem c7_close_idempotent_when_cancellable (s : SessionState)
    (h : s.hasCancel = true) :
    closeSession s = .ok { s with cancelled := true } ∧
    closeSession { s with cancelled := true } = .ok { s with cancelled := true } := by
  constructor
  · simp [closeSession, h]
  · simp [closeSession, h]

theorem c7_witness :
    closeSession (newSessionState []) =
      .ok { newSessionState [] with cancelled := true } ∧
    closeSession { newSessionState [] with cancelled := true } =
      .ok { newSessionState [] with cancelled := true } :=
  c7_close_idempotent_when_cancellable (newSessionState []) rfl

/-- C8: in every state reachable from a server with `n` in-flight workers,
the wait-group counter equals the number of live workers (no worker is
abandoned or double-counted), the listener is only ever closed after the
server-wide context is cancelled, the accept loop never exits with an
error (it observes the intentional stop), and `Stop` has returned only if
every worker has exited, the counter is back to zero, and the
cancel-then-close sequence has completed. -/
theorem c8_stop_drains_and_accept_exits_normally (n : Nat) (s : ServerState)
    (h : ServerReach (serverWithWorkers n) s) :
    s.wgCounter = s.activeWorkers ∧
    (s.listenerClosed = true → s.ctxCancelled = true) ∧
    s.acceptLoop ≠ .stoppedError ∧
    (s.stopPC = .returned →
      s.wgCounter = 0 ∧ s.activeWorkers = 0 ∧
      s.listenerClosed = true ∧ s.ctxCancelled = true) := by
  obtain ⟨h1, h2, h3, h4, h5, h6⟩ := serverInv_reach h
  refine ⟨h1, h4, h6, fun hret => ⟨h5 hret, ?_, h3 (Or.inr hret), h2 (by simp [hret])⟩⟩
  rw [← h1]
  exact h5 hret

theorem c8_witness :
    (serverWithWorkers 2).wgCounter = (serverWithWorkers 2).activeWorkers ∧
    (serverWithWorkers 2).acceptLoop ≠ .stoppedError :=
  ⟨(c8_stop_drains_and_accept_exits_normally 2 (serverWithWorkers 2)
      Relation.ReflTransGen.refl).1,
   (c8_stop_drains_and_accept_exits_normally 2 (serverWithWorkers 2)
      Relation.ReflTransGen.refl).2.2.1⟩

/-- C9: reading an environment value by key through `GetEnv` yields the
empty string for every key absent from the mapping and the stored value
for every present key; no error is possible (the function is total). -/
theorem c9_getenv_absent_empty_present_value (env : EnvMap) (key : List Char) :
    (key ∉ env.map Prod.fst → GetEnv env key = []) ∧
    (∀ v, envFind env key = some v → GetEnv env key = v) := by
  constructor
  · intro h
    simp [GetEnv, envFind_eq_none_of_not_mem env key h]
  · intro v h
    simp [GetEnv, h]

theorem c9_witness :
    GetEnv [("agi_network".data, "yes".data)] ("agi_missing".data) = [] ∧
    GetEnv [("agi_network".data, "yes".data)] ("agi_network".data) = "yes".data :=
  ⟨(c9_getenv_absent_empty_present_value _ _).1 (by decide),
   (c9_getenv_absent_empty_present_value _ _).2 _ (by decide)⟩

/-- C10: `UnescapeString` is an exact left inverse of `EscapeString`: for
every string, escaping backslashes and double quotes and then unescaping
them returns the original string. -/
theorem c10_unescape_escape_roundtrip (s : String) :
    UnescapeString (EscapeString s) = s := by
  cases s with
  | mk data =>
    simp [UnescapeString, EscapeString, unescQuote_escQuote,
      unescBackslash_escBackslash]

end AgiSpec
